import Mathlib

/-!
Shallow embedding of the ferrite-nn feedforward neural-network engine.

Scalars: the source works on `f64`; we embed its arithmetic over `ℚ` so that
every definition is computable and exact.  The transcendental primitives the
source uses (`exp`, `ln`, `sqrt`, `cos`, `tanh`, and the constant `PI`) have
no computable counterpart on `ℚ`, so they are passed in as an abstract
record of operations (`FloatOps`); every algebraic claim proved below holds
for an arbitrary interpretation of these primitives, and concrete witnesses
instantiate them with rational stand-ins.

Panics in the source (`panic!`, failed `assert!`, out-of-bounds indexing)
are modelled as `Option`/`Except` failures where a claim is about them.
Matrix algebra helpers that the training pipeline only ever invokes on
shape-compatible data are modelled as total functions that read entries via
`getD` with default 0 — on shape-compatible inputs (the only inputs the
source reaches without panicking) they compute exactly the source's values.
-/

namespace Ferrite

/-- Abstract interpretations of the `f64` transcendental primitives used by
the source (`E.powf`, `ln`, `sqrt`, `cos`, `tanh`, `std::f64::consts::PI`). -/
structure FloatOps where
  exp : ℚ → ℚ
  ln : ℚ → ℚ
  sqrt : ℚ → ℚ
  cos : ℚ → ℚ
  tanh : ℚ → ℚ
  pi : ℚ

/-- A trivial interpretation of the transcendental primitives, used only to
instantiate universally quantified theorems in concrete witnesses. -/
def opsTriv : FloatOps :=
  { exp := fun x => x, ln := fun x => x, sqrt := fun x => x,
    cos := fun x => x, tanh := fun x => x, pi := 0 }

/-! ## Matrix (src/math/matrix.rs) -/

/-- `Matrix { rows, cols, data }` from src/math/matrix.rs. -/
structure Matrix where
  rows : Nat
  cols : Nat
  data : List (List ℚ)
  deriving Repr, DecidableEq

namespace Matrix

/-- The struct invariant stated in the spec: `data` has exactly `rows`
entries, each of length `cols`. -/
def WF (m : Matrix) : Prop :=
  m.data.length = m.rows ∧ ∀ row ∈ m.data, row.length = m.cols

instance (m : Matrix) : Decidable m.WF := by
  unfold WF; infer_instance

/-- Entry access as the source performs it with `self.data[i][j]`; out of
range indices read the default 0 (the source would panic there — all places
we use `get` are in range on shape-compatible data). -/
def get (m : Matrix) (i j : Nat) : ℚ :=
  (m.data.getD i []).getD j 0

/-- `Matrix::zeros(rows, cols)`. -/
def zeros (rows cols : Nat) : Matrix :=
  ⟨rows, cols, List.replicate rows (List.replicate cols 0)⟩

/-- `Matrix::from_data(data)`: sets `rows = data.len()`, `cols = data[0].len()`.
The index `data[0]` panics on an empty outer vector, modelled as `none`. -/
def from_data (data : List (List ℚ)) : Option Matrix :=
  match data with
  | [] => none
  | r :: rest => some ⟨(r :: rest).length, r.length, r :: rest⟩

/-- Total counterpart of `Matrix::from_data` for the call sites where the
source passes provably non-empty data; `cols` falls back to 0 on empty data
(where the source itself would panic).  Related to `from_data` by
`from_data_eq_mk` below. -/
def mkData (data : List (List ℚ)) : Matrix :=
  ⟨data.length, (data.headD []).length, data⟩

theorem from_data_eq_mk (data : List (List ℚ)) (h : data ≠ []) :
    from_data data = some (mkData data) := by
  cases data with
  | nil => exact absurd rfl h
  | cons r rest => rfl

/-- `Matrix::map(f)`: clones `data`, maps `f` over every entry and rebuilds
through `Matrix::from_data` — hence it panics (returns `none`) exactly when
`data` is empty. -/
def map (m : Matrix) (f : ℚ → ℚ) : Option Matrix :=
  from_data (m.data.map (List.map f))

/-- Total counterpart of `Matrix::map` used at the pipeline's internal call
sites (which only ever map over `1×size` matrices); agrees with `map` on
every matrix with at least one row (`map_eq_mapD`). -/
def mapD (f : ℚ → ℚ) (m : Matrix) : Matrix :=
  mkData (m.data.map (List.map f))

theorem map_eq_mapD (m : Matrix) (f : ℚ → ℚ) (h : m.data ≠ []) :
    m.map f = some (mapD f m) := by
  unfold map mapD
  exact from_data_eq_mk _ (by simpa using h)

/-- `Matrix::default()`: `{ rows: 0, cols: 0, data: vec![] }`. -/
def default : Matrix := ⟨0, 0, []⟩

/-- `Matrix::transpose`. -/
def transpose (m : Matrix) : Matrix :=
  ⟨m.cols, m.rows,
    (List.range m.cols).map (fun i => (List.range m.rows).map (fun j => m.get j i))⟩

/-- `impl Add for Matrix`: asserts equal shapes (panic on mismatch — never
reached by the pipeline, which only adds shape-compatible matrices), then
adds entry-wise into a `zeros(self.rows, self.cols)` result. -/
def add (a b : Matrix) : Matrix :=
  ⟨a.rows, a.cols,
    (List.range a.rows).map (fun i => (List.range a.cols).map (fun j => a.get i j + b.get i j))⟩

/-- `impl Sub for Matrix`: same shape discipline as `add`. -/
def sub (a b : Matrix) : Matrix :=
  ⟨a.rows, a.cols,
    (List.range a.rows).map (fun i => (List.range a.cols).map (fun j => a.get i j - b.get i j))⟩

/-- `impl Mul for Matrix` (matrix product): result is
`zeros(self.rows, rhs.cols)` filled with dot products over `k < self.cols`. -/
def matmul (a b : Matrix) : Matrix :=
  ⟨a.rows, b.cols,
    (List.range a.rows).map (fun i =>
      (List.range b.cols).map (fun j =>
        ((List.range a.cols).map (fun k => a.get i k * b.get k j)).sum))⟩

/-- `Matrix::sample_standard_normal(rng)`: one Box–Muller draw from two
uniforms `u1 = 1 - rng.gen()`, `u2 = 1 - rng.gen()` (both in `(0, 1]`):
`sqrt(-2·ln u1) · cos(2·π·u2)`.  `u1raw`/`u2raw` are the two raw
`rng.gen::<f64>()` draws. -/
def sample_standard_normal (ops : FloatOps) (u1raw u2raw : ℚ) : ℚ :=
  let u1 := 1 - u1raw
  let u2 := 1 - u2raw
  ops.sqrt (-2 * ops.ln u1) * ops.cos (2 * ops.pi * u2)

/-- `Matrix::he(rows, cols)`: fills an `rows×cols` matrix with standard-normal
Box–Muller samples scaled by `std_dev = sqrt(2.0 / cols)` — note the source
divides by `cols`, not `rows`.  The thread RNG is modelled as the abstract
uniform stream `rng`; entry `(i, j)` is the `i*cols + j`-th sample and
consumes raw draws `2k` and `2k+1`. -/
def he (ops : FloatOps) (rng : Nat → ℚ) (rows cols : Nat) : Matrix :=
  ⟨rows, cols,
    (List.range rows).map (fun i =>
      (List.range cols).map (fun j =>
        sample_standard_normal ops (rng (2 * (i * cols + j))) (rng (2 * (i * cols + j) + 1))
          * ops.sqrt (2 / (cols : ℚ))))⟩

/-- `Matrix::xavier(rows, cols)`: as `he` but with `std_dev = sqrt(1.0 / cols)`
— again dividing by `cols`, not `rows`. -/
def xavier (ops : FloatOps) (rng : Nat → ℚ) (rows cols : Nat) : Matrix :=
  ⟨rows, cols,
    (List.range rows).map (fun i =>
      (List.range cols).map (fun j =>
        sample_standard_normal ops (rng (2 * (i * cols + j))) (rng (2 * (i * cols + j) + 1))
          * ops.sqrt (1 / (cols : ℚ))))⟩

end Matrix

/-- `hadamard(a, b)` from src/layers/dense.rs: asserts equal shapes then zips
both data grids with entry-wise multiplication and rebuilds via
`Matrix::from_data` (total model: on the asserted equal, non-empty shapes the
result is exactly the source's). -/
def hadamard (a b : Matrix) : Matrix :=
  Matrix.mkData (List.zipWith (fun ra rb => List.zipWith (· * ·) ra rb) a.data b.data)

/-! ## ActivationFunction (src/activation/activation.rs) -/

/-- The closed activation variant set. -/
inductive ActivationFunction where
  | Sigmoid
  | ReLU
  | Identity
  | Softmax
  | Tanh
  | LeakyReLU (alpha : ℚ)
  | Elu (alpha : ℚ)
  | Gelu
  | Swish
  deriving Repr, DecidableEq

namespace ActivationFunction

/-- `ActivationFunction::function(x)`: element-wise activation.  The
`Softmax` arm panics ("must not be called directly"), modelled as `none`. -/
def function (ops : FloatOps) : ActivationFunction → ℚ → Option ℚ
  | Sigmoid, x => some (1 / (1 + ops.exp (-x)))
  | ReLU, x => some (if x > 0 then x else 0)
  | Identity, x => some x
  | Softmax, _ => none
  | Tanh, x => some (ops.tanh x)
  | LeakyReLU alpha, x => some (if x > 0 then x else alpha * x)
  | Elu alpha, x => some (if x > 0 then x else alpha * (ops.exp x - 1))
  | Gelu, x =>
      some (let c := ops.sqrt (2 / ops.pi)
            1/2 * x * (1 + ops.tanh (c * (x + 44715/1000000 * x ^ 3))))
  | Swish, x => some (x / (1 + ops.exp (-x)))

/-- The value `ActivationFunction::function` computes on the non-panicking
variants (every variant except `Softmax`); used by `Layer::feed_from`, which
only reaches `function` after branching away from `Softmax`.  Related to
`function` by `function_eq_scalar`. -/
def scalarFun (ops : FloatOps) : ActivationFunction → ℚ → ℚ
  | Sigmoid, x => 1 / (1 + ops.exp (-x))
  | ReLU, x => if x > 0 then x else 0
  | Identity, x => x
  | Softmax, _ => 0
  | Tanh, x => ops.tanh x
  | LeakyReLU alpha, x => if x > 0 then x else alpha * x
  | Elu alpha, x => if x > 0 then x else alpha * (ops.exp x - 1)
  | Gelu, x =>
      let c := ops.sqrt (2 / ops.pi)
      1/2 * x * (1 + ops.tanh (c * (x + 44715/1000000 * x ^ 3)))
  | Swish, x => x / (1 + ops.exp (-x))

theorem function_eq_scalar (ops : FloatOps) (a : ActivationFunction) (x : ℚ)
    (h : a ≠ Softmax) : function ops a x = some (scalarFun ops a x) := by
  cases a <;> first | rfl | exact absurd rfl h

/-- `ActivationFunction::derivative(x)`: element-wise derivative.  No arm
panics; in particular the `Softmax` arm returns the constant `1.0` (the
deliberate pass-through simplification for the Softmax+CrossEntropy pair).
The `Sigmoid` arm's `self.function(x)` is inlined to the sigmoid formula
(the value `function` computes on the `Sigmoid` variant). -/
def derivative (ops : FloatOps) : ActivationFunction → ℚ → ℚ
  | Sigmoid, x =>
      let fx := 1 / (1 + ops.exp (-x))
      fx * (1 - fx)
  | ReLU, x => if x > 0 then 1 else 0
  | Identity, _ => 1
  | Softmax, _ => 1
  | Tanh, x =>
      let t := ops.tanh x
      1 - t * t
  | LeakyReLU alpha, x => if x > 0 then 1 else alpha
  | Elu alpha, x => if x > 0 then 1 else alpha * ops.exp x
  | Gelu, x =>
      let c := ops.sqrt (2 / ops.pi)
      let inner := c * (x + 44715/1000000 * x ^ 3)
      let tanh_inner := ops.tanh inner
      let sech2 := 1 - tanh_inner * tanh_inner
      let d_inner := c * (1 + 3 * (44715/1000000) * x ^ 2)
      1/2 * tanh_inner + 1/2 * x * sech2 * d_inner + 1/2
  | Swish, x =>
      let sig := 1 / (1 + ops.exp (-x))
      sig + x * sig * (1 - sig)

end ActivationFunction

/-! ## Loss functions (src/loss/) -/

/-- `EPS = 1e-12`, the additive guard against `ln(0)` (cross_entropy.rs and
bce.rs declare the same constant). -/
def EPS : ℚ := 1 / 10 ^ 12

namespace MseLoss

/-- `MseLoss::loss`: `mean((predicted - expected)²)`. -/
def loss (predicted expected : List ℚ) : ℚ :=
  let n : ℚ := predicted.length
  (List.zipWith (fun a b => (a - b) ^ 2) predicted expected).sum / n

/-- `MseLoss::derivative`: `predicted - expected` element-wise. -/
def derivative (predicted expected : List ℚ) : List ℚ :=
  List.zipWith (fun a b => a - b) predicted expected

end MseLoss

namespace CrossEntropyLoss

/-- `CrossEntropyLoss::loss`: `-Σ expected·ln(predicted + EPS)`. -/
def loss (ops : FloatOps) (predicted expected : List ℚ) : ℚ :=
  (List.zipWith (fun p e => -e * ops.ln (p + EPS)) predicted expected).sum

/-- `CrossEntropyLoss::derivative`: the combined Softmax+cross-entropy
gradient `predicted - expected` element-wise. -/
def derivative (predicted expected : List ℚ) : List ℚ :=
  List.zipWith (fun p e => p - e) predicted expected

end CrossEntropyLoss

namespace BceLoss

/-- `BceLoss::loss`: `-mean(y·ln(p+ε) + (1-y)·ln(1-p+ε))`. -/
def loss (ops : FloatOps) (predicted expected : List ℚ) : ℚ :=
  let n : ℚ := predicted.length
  (List.zipWith (fun p y => -(y * ops.ln (p + EPS) + (1 - y) * ops.ln (1 - p + EPS)))
    predicted expected).sum / n

/-- `BceLoss::derivative`: `(p - y) / ((p + ε) · (1 - p + ε))`. -/
def derivative (predicted expected : List ℚ) : List ℚ :=
  List.zipWith (fun p y => (p - y) / ((p + EPS) * (1 - p + EPS))) predicted expected

end BceLoss

namespace MaeLoss

/-- `MaeLoss::loss`: `mean(|predicted - expected|)`. -/
def loss (predicted expected : List ℚ) : ℚ :=
  let n : ℚ := predicted.length
  (List.zipWith (fun p y => |p - y|) predicted expected).sum / n

/-- `MaeLoss::derivative`: `sign(p - y) / n`, `0` at a tie. -/
def derivative (predicted expected : List ℚ) : List ℚ :=
  let n : ℚ := predicted.length
  List.zipWith (fun p y =>
    let diff := p - y
    if diff > 0 then 1 / n else if diff < 0 then -1 / n else 0) predicted expected

end MaeLoss

namespace HuberLoss

/-- `DELTA = 1.0` (huber.rs fixes δ). -/
def DELTA : ℚ := 1

/-- `HuberLoss::loss`: `mean(h(p - y))` with
`h(x) = 0.5·x²` if `|x| ≤ δ`, else `δ·(|x| - 0.5·δ)`. -/
def loss (predicted expected : List ℚ) : ℚ :=
  let n : ℚ := predicted.length
  (List.zipWith (fun p y =>
    let x := p - y
    if |x| ≤ DELTA then 1/2 * x * x else DELTA * (|x| - 1/2 * DELTA))
    predicted expected).sum / n

/-- `HuberLoss::derivative`: `x` if `|x| ≤ δ`, else `δ·sign(x)`.
`f64::signum` returns `1.0` for positive (and `+0.0`!) and `-1.0` for
negative; the source only reaches the `signum` branch when `|x| > δ = 1`,
so `x ≠ 0` there and the sign is the usual one. -/
def derivative (predicted expected : List ℚ) : List ℚ :=
  List.zipWith (fun p y =>
    let x := p - y
    if |x| ≤ DELTA then x else DELTA * (if x ≥ 0 then 1 else -1)) predicted expected

end HuberLoss

/-- `LossType` (src/loss/loss_type.rs): the closed five-variant loss tag. -/
inductive LossType where
  | Mse
  | CrossEntropy
  | BinaryCrossEntropy
  | Mae
  | Huber
  deriving Repr, DecidableEq

/-- `compute_loss` (src/train/loop_fn.rs): the training loop's scalar-loss
dispatch.  The source's `match` has arms **only** for `LossType::Mse` and
`LossType::CrossEntropy`; the remaining three variants have no arm at all
(the match is not exhaustive), modelled as `none`. -/
def compute_loss (ops : FloatOps) (predicted expected : List ℚ) :
    LossType → Option ℚ
  | .Mse => some (MseLoss.loss predicted expected)
  | .CrossEntropy => some (CrossEntropyLoss.loss ops predicted expected)
  | .BinaryCrossEntropy => none
  | .Mae => none
  | .Huber => none

/-- `compute_loss_derivative` (src/train/loop_fn.rs): the training loop's
loss-derivative dispatch; like `compute_loss` its `match` has arms only for
`Mse` and `CrossEntropy`. -/
def compute_loss_derivative (predicted expected : List ℚ) :
    LossType → Option (List ℚ)
  | .Mse => some (MseLoss.derivative predicted expected)
  | .CrossEntropy => some (CrossEntropyLoss.derivative predicted expected)
  | .BinaryCrossEntropy => none
  | .Mae => none
  | .Huber => none

/-! ## Layer (src/layers/dense.rs) -/

/-- `Layer` from src/layers/dense.rs.  `neurons` and `pre_neurons` are the
two `#[serde(skip)]` per-call cache fields. -/
structure Layer where
  size : Nat
  neurons : Matrix
  pre_neurons : Matrix
  weights : Matrix
  biases : Matrix
  activator : ActivationFunction
  deriving Repr, DecidableEq

/-- Fold of `f64::max` over a list, as `logits.iter().fold(NEG_INFINITY, max)`
computes it.  `ℚ` has no `-∞`; on the non-empty logit vectors the layer
actually produces, seeding with the first element is identical. -/
def listMax : List ℚ → ℚ
  | [] => 0
  | x :: xs => xs.foldl max x

namespace Layer

/-- `Layer::new(size, input_size, activation)` — weight init dispatched on
the activation (He for ReLU, Xavier otherwise), biases zero.  The random
draws are supplied by the abstract uniform stream `rng` (see `Matrix.he`). -/
def new (ops : FloatOps) (rng : Nat → ℚ) (size input_size : Nat)
    (activation : ActivationFunction) : Layer :=
  { size := size
    neurons := Matrix.zeros 1 size
    pre_neurons := Matrix.zeros 1 size
    weights :=
      match activation with
      | .ReLU => Matrix.he ops rng input_size size
      | _ => Matrix.xavier ops rng input_size size
    biases := Matrix.zeros 1 size
    activator := activation }

/-- `Layer::feed_from(input)`: `z = input·W + b`; Softmax applies the
numerically-stable full-vector softmax (subtract `max(z)`, exponentiate,
normalize), all other variants apply the scalar activation element-wise;
both caches are overwritten; the output row is returned.  Returns the
updated layer together with the output vector (`a.data[0]`). -/
def feed_from (ops : FloatOps) (l : Layer) (input : List ℚ) : Layer × List ℚ :=
  let z := Matrix.add (Matrix.matmul ⟨1, input.length, [input]⟩ l.weights) l.biases
  let a :=
    match l.activator with
    | .Softmax =>
        let logits := z.data.headD []
        let max_z := listMax logits
        let exps := logits.map (fun v => ops.exp (v - max_z))
        let sum_exps := exps.sum
        let softmax := exps.map (fun e => e / sum_exps)
        Matrix.mkData [softmax]
    | _ => Matrix.mapD (ActivationFunction.scalarFun ops l.activator) z
  ({ l with pre_neurons := z, neurons := a }, a.data.headD [])

/-- `Layer::compute_gradients(next_layer_delta, inputs)`:
`actDeriv = pre_neurons.map(derivative)`, `layerDelta = hadamard(delta, actDeriv)`,
returns `(inputsᵀ · layerDelta, layerDelta)`. -/
def compute_gradients (ops : FloatOps) (l : Layer) (next_layer_delta : Matrix)
    (inputs : Matrix) : Matrix × Matrix :=
  let act_derivative :=
    Matrix.mapD (fun x => ActivationFunction.derivative ops l.activator x) l.pre_neurons
  let layer_delta := hadamard next_layer_delta act_derivative
  (Matrix.matmul (Matrix.transpose inputs) layer_delta, layer_delta)

/-- `Layer::apply_gradients(weights_grad, biases_grad, lr)`: in-place
`weights -= lr·wGrad`, `biases -= lr·bGrad`. -/
def apply_gradients (l : Layer) (weights_grad biases_grad : Matrix) (lr : ℚ) : Layer :=
  { l with
    weights := Matrix.sub l.weights (Matrix.mapD (fun x => x * lr) weights_grad)
    biases := Matrix.sub l.biases (Matrix.mapD (fun x => x * lr) biases_grad) }

end Layer

/-! ## Optimizer (src/optim/sgd.rs) -/

/-- `Sgd { learning_rate }`. -/
structure Sgd where
  learning_rate : ℚ

/-- `Sgd::step(layer, weights_grad, biases_grad)` delegates to
`Layer::apply_gradients`. -/
def Sgd.step (opt : Sgd) (l : Layer) (weights_grad biases_grad : Matrix) : Layer :=
  l.apply_gradients weights_grad biases_grad opt.learning_rate

/-! ## Network (src/network/network.rs) -/

/-- `Network { layers }`. -/
structure Network where
  layers : List Layer
  deriving Repr, DecidableEq

/-- The recursion behind `Network::forward`: thread the running vector
through the layers front to back, collecting each layer's updated caches. -/
def forwardLayers (ops : FloatOps) : List Layer → List ℚ → List Layer × List ℚ
  | [], current => ([], current)
  | l :: ls, current =>
      let fed := l.feed_from ops current
      let rest := forwardLayers ops ls fed.2
      (fed.1 :: rest.1, rest.2)

/-- `Network::forward(input)`: returns the mutated network (updated layer
caches) together with the final output vector. -/
def Network.forward (ops : FloatOps) (net : Network) (input : List ℚ) :
    Network × List ℚ :=
  let r := forwardLayers ops net.layers input
  (⟨r.1⟩, r.2)

/-! ## Training loop helpers (src/train/loop_fn.rs) -/

/-- The fold behind `argmax`'s `max_by`: Rust's `Iterator::max_by` keeps the
**later** element whenever the comparison is `Less` or `Equal` ("if several
elements are equally maximum, the last element is returned").  On `ℚ`
`partial_cmp` is total, so the update condition is `¬(a > b)`. -/
def argmaxFold : Nat × ℚ → List (Nat × ℚ) → Nat × ℚ
  | acc, [] => acc
  | (i, a), (j, b) :: rest =>
      if a > b then argmaxFold (i, a) rest else argmaxFold (j, b) rest

/-- `argmax(v)` (src/train/loop_fn.rs): index of the maximum element via
`enumerate().max_by(partial_cmp)`, `unwrap_or(0)` on the empty slice. -/
def argmax (v : List ℚ) : Nat :=
  match v with
  | [] => 0
  | x :: xs => (argmaxFold (0, x) (List.enumFrom 1 xs)).1

/-- Modelled from the spec: "argmax returns the index of the maximum element
and, whenever several elements are tied for the maximum, returns the first
(lowest) such index" — the first-maximum argmax the claim describes, used
only to compare against the source's `argmax`. -/
def argmaxFirstSpec (v : List ℚ) : Nat :=
  match v with
  | [] => 0
  | x :: xs =>
      (List.enumFrom 1 xs |>.foldl (fun (acc : Nat × ℚ) p => if p.2 > acc.2 then p else acc) (0, x)).1

/-- `compute_accuracy(network, inputs, labels)`: fraction of samples with
`argmax(output) == argmax(label)`; `0.0` on an empty input set.  The network
is threaded because each `forward` rewrites the layer caches. -/
def compute_accuracy (ops : FloatOps) (net : Network)
    (inputs labels : List (List ℚ)) : Network × ℚ :=
  let n := inputs.length
  if n = 0 then (net, 0)
  else
    let r := (inputs.zip labels).foldl
      (fun (st : Network × Nat) pr =>
        let fwd := st.1.forward ops pr.1
        (fwd.1, if argmax fwd.2 = argmax pr.2 then st.2 + 1 else st.2))
      (net, 0)
    (r.1, (r.2 : ℚ) / (n : ℚ))

/-- `compute_eval_loss(network, inputs, labels, loss_type)`: mean loss over a
dataset without gradient accumulation; `0.0` on an empty set.  The `none`
fallback `getD 0` marks the loss-type variants for which the source's
dispatch has no match arm (dead code: the match is not exhaustive). -/
def compute_eval_loss (ops : FloatOps) (net : Network)
    (inputs labels : List (List ℚ)) (lt : LossType) : Network × ℚ :=
  let n := inputs.length
  if n = 0 then (net, 0)
  else
    let r := (inputs.zip labels).foldl
      (fun (st : Network × ℚ) pr =>
        let fwd := st.1.forward ops pr.1
        (fwd.1, st.2 + (compute_loss ops fwd.2 pr.2 lt).getD 0))
      (net, 0)
    (r.1, r.2 / (n : ℚ))

/-! ## One epoch of mini-batch SGD (`run_one_epoch`, src/train/loop_fn.rs) -/

/-- The `input_for_layer` values of the backward loop, front-to-back:
index `0` gets `Matrix::from_data(vec![input])`, index `i > 0` gets
`layers[i-1].neurons` (the post-forward caches). -/
def layer_inputs (input : List ℚ) (layers : List Layer) : List Matrix :=
  ⟨1, input.length, [input]⟩ :: (layers.dropLast.map (fun l => l.neurons))

/-- The backward walk of `run_one_epoch`, processed over the **reversed**
list of (layer, layer input) pairs: each step computes this layer's
gradients from the incoming delta and propagates
`delta = b_grad · weightsᵀ` to the previous layer.  (The source skips the
propagation product at layer 0; computing it and discarding it is
observably identical.)  Returns the per-layer gradients in back-to-front
order. -/
def backwardRev (ops : FloatOps) : List (Layer × Matrix) → Matrix → List (Matrix × Matrix)
  | [], _ => []
  | (l, inp) :: rest, delta =>
      let grads := l.compute_gradients ops delta inp
      let delta' := Matrix.matmul grads.2 (Matrix.transpose l.weights)
      grads :: backwardRev ops rest delta'

/-- Per-layer `(w_grad, b_grad)` of one sample's backward pass, in layer
order (front-to-back). -/
def sample_grads (ops : FloatOps) (layers : List Layer) (input : List ℚ)
    (errorDelta : Matrix) : List (Matrix × Matrix) :=
  (backwardRev ops ((layers.zip (layer_inputs input layers)).reverse) errorDelta).reverse

/-- One sample of the mini-batch loop: forward, add the scalar loss to the
running total, build the initial delta from the loss derivative, run the
backward pass and add the per-layer gradients into the accumulators. -/
def process_sample (ops : FloatOps) (inputs labels : List (List ℚ)) (lt : LossType)
    (st : Network × List (Matrix × Matrix) × ℚ) (idx : Nat) :
    Network × List (Matrix × Matrix) × ℚ :=
  let input := inputs.getD idx []
  let expected := labels.getD idx []
  let fwd := st.1.forward ops input
  let total := st.2.2 + (compute_loss ops fwd.2 expected lt).getD 0
  let error := (compute_loss_derivative fwd.2 expected lt).getD []
  let delta : Matrix := ⟨1, error.length, [error]⟩
  let grads := sample_grads ops fwd.1.layers input delta
  (fwd.1,
   List.zipWith (fun (p q : Matrix × Matrix) => (Matrix.add p.1 q.1, Matrix.add p.2 q.2))
     st.2.1 grads,
   total)

/-- Zero-initialized accumulated-gradient storage: one
`(zeros(weights shape), zeros(biases shape))` pair per layer. -/
def zero_grads (layers : List Layer) : List (Matrix × Matrix) :=
  layers.map (fun l =>
    (Matrix.zeros l.weights.rows l.weights.cols,
     Matrix.zeros l.biases.rows l.biases.cols))

/-- "Average and apply": scale each accumulated gradient by `inv_batch` and
call `optimizer.step` once per layer. -/
def apply_averaged (opt : Sgd) (inv_batch : ℚ) (layers : List Layer)
    (acc : List (Matrix × Matrix)) : List Layer :=
  List.zipWith
    (fun (l : Layer) (g : Matrix × Matrix) =>
      opt.step l (Matrix.mapD (fun x => x * inv_batch) g.1)
        (Matrix.mapD (fun x => x * inv_batch) g.2))
    layers acc

/-- The body of `run_one_epoch` for the batch starting at `batch_start`:
`batch_end = min(batch_start + batch_size, n)`,
`actual_batch_size = batch_end - batch_start` (the **true** batch length),
zeroed accumulators, per-sample accumulation over
`indices[batch_start..batch_end]`, then one averaged SGD step per layer. -/
def run_batch (ops : FloatOps) (inputs labels : List (List ℚ)) (opt : Sgd)
    (batch_size : Nat) (lt : LossType) (perm : List Nat) (n : Nat)
    (batch_start : Nat) (st : Network × ℚ) : Network × ℚ :=
  let batch_end := min (batch_start + batch_size) n
  let actual_batch_size : ℚ := ((batch_end - batch_start : Nat) : ℚ)
  let idxs := (perm.drop batch_start).take (batch_end - batch_start)
  let acc0 := zero_grads st.1.layers
  let r := idxs.foldl (process_sample ops inputs labels lt) (st.1, acc0, st.2)
  let inv_batch := 1 / actual_batch_size
  (⟨apply_averaged opt inv_batch r.1.layers r.2.1⟩, r.2.2)

/-- The batch starts produced by `(0..n).step_by(batch_size)`:
`[0, bs, 2·bs, …]` strictly below `n` (`step_by` panics on step 0; the
training loop asserts `batch_size ≥ 1` before ever reaching this loop, and
for `batch_size = 0` this model returns the empty list). -/
def batch_starts (n batch_size : Nat) : List Nat :=
  (List.range ((n + batch_size - 1) / batch_size)).map (fun k => k * batch_size)

/-- `run_one_epoch(network, inputs, labels, optimizer, batch_size, loss_type)`:
one full pass of mini-batch SGD over the data in the shuffled index order
`perm` (the source shuffles `0..n` with the thread RNG; the permutation is
passed in explicitly).  Returns the updated network and the mean loss
`total_loss / n`. -/
def run_one_epoch (ops : FloatOps) (net : Network) (inputs labels : List (List ℚ))
    (opt : Sgd) (batch_size : Nat) (lt : LossType) (perm : List Nat) :
    Network × ℚ :=
  let n := inputs.length
  let r := (batch_starts n batch_size).foldl
    (fun st bs => run_batch ops inputs labels opt batch_size lt perm n bs st)
    (net, 0)
  (r.1, r.2 / (n : ℚ))

/-! ## train_loop (src/train/loop_fn.rs) -/

/-- `EpochStats` (src/train/epoch_stats.rs).  `elapsed_ms` is wall-clock
time, outside the scope of the embedding — modelled as 0. -/
structure EpochStats where
  epoch : Nat
  total_epochs : Nat
  train_loss : ℚ
  val_loss : Option ℚ
  train_accuracy : Option ℚ
  val_accuracy : Option ℚ
  elapsed_ms : Nat
  deriving Repr, DecidableEq

/-- `TrainConfig` (src/train/train_config.rs).  The cross-thread parts are
modelled as oracles: `progress_present` says whether a `progress_tx` channel
is configured, `send_ok k` whether the send of epoch `k`'s stats finds a
live receiver, and `stop_flag` (when present) gives the value each
successive poll of the atomic flag reads. -/
structure TrainConfig where
  epochs : Nat
  batch_size : Nat
  loss_type : LossType
  progress_present : Bool
  send_ok : Nat → Bool
  stop_flag : Option (Nat → Bool)

/-- One poll of the optional stop flag (`flag.load(Ordering::Relaxed)`);
an absent flag always reads `false`. -/
def pollStop (cfg : TrainConfig) (k : Nat) : Bool :=
  match cfg.stop_flag with
  | none => false
  | some f => f k

/-- The observable outcome of a `train_loop` run: the final network, the
returned `last_train_loss`, the `EpochStats` actually delivered to the
progress channel (in emission order), and the number of epochs whose
training pass completed. -/
structure TrainResult where
  network : Network
  last_train_loss : ℚ
  events : List EpochStats
  epochs_completed : Nat
  deriving Repr, DecidableEq

/-- The epoch loop of `train_loop`.  `remaining` counts the epochs left
(starting at `cfg.epochs`), `epoch` is the 1-based epoch number, `polls`
counts stop-flag polls so far (two per full epoch: one at the top, one
after emission).  Each iteration: poll the stop flag (break if set), run
one epoch, record its loss, compute accuracy for CrossEntropy runs,
evaluate the validation set if present, emit the stats (break if the
receiver is gone), and poll the stop flag again. -/
def train_epochs (ops : FloatOps) (inputs labels : List (List ℚ))
    (vi vl : Option (List (List ℚ))) (opt : Sgd) (cfg : TrainConfig)
    (perms : Nat → List Nat) :
    Nat → Nat → Nat → Network → ℚ → List EpochStats → Nat → TrainResult
  | 0, _, _, net, last, events, completed => ⟨net, last, events, completed⟩
  | remaining + 1, epoch, polls, net, last, events, completed =>
    if pollStop cfg polls then ⟨net, last, events, completed⟩
    else
      let er := run_one_epoch ops net inputs labels opt cfg.batch_size
        cfg.loss_type (perms epoch)
      let train_loss := er.2
      let accr : Network × Option ℚ :=
        if cfg.loss_type = .CrossEntropy then
          let a := compute_accuracy ops er.1 inputs labels
          (a.1, some a.2)
        else (er.1, none)
      let valr : Network × Option ℚ × Option ℚ :=
        match vi, vl with
        | some vinp, some vlab =>
            let l := compute_eval_loss ops accr.1 vinp vlab cfg.loss_type
            if cfg.loss_type = .CrossEntropy then
              let a := compute_accuracy ops l.1 vinp vlab
              (a.1, some l.2, some a.2)
            else (l.1, some l.2, none)
        | _, _ => (accr.1, none, none)
      let stats : EpochStats :=
        ⟨epoch, cfg.epochs, train_loss, valr.2.1, accr.2, valr.2.2, 0⟩
      let completed1 := completed + 1
      if cfg.progress_present && !cfg.send_ok epoch then
        ⟨valr.1, train_loss, events, completed1⟩
      else
        let events1 := if cfg.progress_present then events ++ [stats] else events
        if pollStop cfg (polls + 1) then ⟨valr.1, train_loss, events1, completed1⟩
        else
          train_epochs ops inputs labels vi vl opt cfg perms
            remaining (epoch + 1) (polls + 2) valr.1 train_loss events1 completed1

/-- `train_loop(network, train_inputs, train_labels, val_inputs, val_labels,
optimizer, config)`: validates the preconditions with `assert!` (modelled as
`Except.error` carrying the assertion message) **before** the epoch loop and
before any mutation, then runs the epochs and returns the mean training loss
of the last completed epoch (`last_train_loss` starts at `0.0`). -/
def train_loop (ops : FloatOps) (net : Network)
    (train_inputs train_labels : List (List ℚ))
    (val_inputs val_labels : Option (List (List ℚ)))
    (opt : Sgd) (cfg : TrainConfig) (perms : Nat → List Nat) :
    Except String TrainResult :=
  if train_inputs.isEmpty then
    Except.error "train_inputs must not be empty"
  else if train_inputs.length ≠ train_labels.length then
    Except.error "train_inputs and train_labels must have equal length"
  else if ¬ cfg.batch_size > 0 then
    Except.error "batch_size must be at least 1"
  else
    Except.ok (train_epochs ops train_inputs train_labels val_inputs val_labels
      opt cfg perms cfg.epochs 1 0 net 0 [] 0)

/-! ## Model persistence (src/network/network.rs, serde layout) -/

/-- The serialized payload of one `Layer`: serde skips the two cache fields
(`neurons`, `pre_neurons`) and keeps `size`, `weights`, `biases`,
`activator`.  `serde_json` round-trips finite `f64` values exactly, so the
numeric payload is carried verbatim. -/
structure LayerJson where
  size : Nat
  weights : Matrix
  biases : Matrix
  activator : ActivationFunction
  deriving Repr, DecidableEq

/-- The serialized payload of a `Network` (`{ layers }`). -/
structure NetworkJson where
  layers : List LayerJson
  deriving Repr, DecidableEq

/-- `Network::save_json`: the value written to disk (file I/O itself is out
of scope; the JSON payload is the serde serialization of the struct). -/
def Network.save_json (n : Network) : NetworkJson :=
  ⟨n.layers.map (fun l => ⟨l.size, l.weights, l.biases, l.activator⟩)⟩

/-- `Network::load_json`: rebuild the network from the serialized payload;
the `#[serde(skip)]` cache fields come back as `Matrix::default()`
(`{rows: 0, cols: 0, data: []}`). -/
def Network.load_json (j : NetworkJson) : Network :=
  ⟨j.layers.map (fun d =>
    ⟨d.size, Matrix.default, Matrix.default, d.weights, d.biases, d.activator⟩)⟩

/-! ## Shared helper lemmas -/

theorem zipWith_getD (f : ℚ → ℚ → ℚ) :
    ∀ (l1 l2 : List ℚ) (i : Nat), i < l1.length → i < l2.length →
      (List.zipWith f l1 l2).getD i 0 = f (l1.getD i 0) (l2.getD i 0)
  | [], _, _, h1, _ => absurd h1 (by simp)
  | _ :: _, [], _, _, h2 => absurd h2 (by simp)
  | a :: l1, b :: l2, 0, _, _ => rfl
  | a :: l1, b :: l2, i + 1, h1, h2 =>
      zipWith_getD f l1 l2 i (by simpa using h1) (by simpa using h2)

/-- A test interpretation of the transcendental primitives under which every
Box–Muller standard-normal sample evaluates to exactly 1 and `sqrt` is the
identity, so an initializer entry directly exposes its squared scale factor. -/
def opsProbe : FloatOps :=
  { exp := fun x => x, ln := fun _ => -(1/2), sqrt := fun x => x,
    cos := fun _ => 1, tanh := fun x => x, pi := 0 }

/-! ## C3 -/

/-- C3 counterexample: the claim says both scalar calls on the `Softmax`
variant fail for every input.  At input `x = 0`, `function` does fail
(the `panic!` arm, modelled as `none`) but `derivative` succeeds and
returns the constant `1.0` — its `Softmax` arm is `1.0`, not a panic. -/
theorem c3_softmax_derivative_succeeds :
    ActivationFunction.function opsTriv .Softmax 0 = none ∧
    ActivationFunction.derivative opsTriv .Softmax 0 = 1 :=
  ⟨rfl, rfl⟩

/-- C3 amended: for the Softmax variant, the scalar `function(x)` fails for
every input `x` (the source panics: "must not be called directly"), while
the scalar `derivative(x)` does **not** fail: it returns the constant `1.0`
for every input (the deliberate Softmax+CrossEntropy pass-through). -/
theorem c3_softmax_scalar_calls (ops : FloatOps) (x : ℚ) :
    ActivationFunction.function ops .Softmax x = none ∧
    ActivationFunction.derivative ops .Softmax x = 1 :=
  ⟨rfl, rfl⟩

/-! ## C6 -/

/-- C6: the training loop's loss dispatch (`compute_loss` /
`compute_loss_derivative`) has match arms **only** for `Mse` and
`CrossEntropy`.  For `BinaryCrossEntropy`, `Mae` and `Huber` — documented in
loss_type.rs as selectable training losses, with complete implementations in
bce.rs/mae.rs/huber.rs — the dispatch computes nothing at all (the `match`
is not even exhaustive).  Evaluated at `predicted = [0.5]`,
`expected = [1.0]`; the final conjuncts show the orphaned implementations do
compute the spec table's values at that input (`BCE`:
`(p−e)/((p+ε)(1−p+ε))`, `MAE`: `sign(p−e)/n`, `Huber` with `δ=1`). -/
theorem c6_loss_dispatch_missing_arms :
    compute_loss opsTriv [(1:ℚ)/2] [1] .BinaryCrossEntropy = none ∧
    compute_loss_derivative [(1:ℚ)/2] [1] .BinaryCrossEntropy = none ∧
    compute_loss opsTriv [(1:ℚ)/2] [1] .Mae = none ∧
    compute_loss_derivative [(1:ℚ)/2] [1] .Mae = none ∧
    compute_loss opsTriv [(1:ℚ)/2] [1] .Huber = none ∧
    compute_loss_derivative [(1:ℚ)/2] [1] .Huber = none ∧
    BceLoss.derivative [(1:ℚ)/2] [1] =
      [((1:ℚ)/2 - 1) / (((1:ℚ)/2 + EPS) * (1 - 1/2 + EPS))] ∧
    MaeLoss.derivative [(1:ℚ)/2] [1] = [-1] ∧
    HuberLoss.derivative [(1:ℚ)/2] [1] = [-(1:ℚ)/2] := by
  refine ⟨rfl, rfl, rfl, rfl, rfl, rfl, ?_, ?_, ?_⟩
  · norm_num [BceLoss.derivative]
  · norm_num [MaeLoss.derivative]
  · norm_num [HuberLoss.derivative, HuberLoss.DELTA, abs_le]

/-! ## C10 -/

/-- C10: `Matrix::from_data` on an empty outer vector fails (the `data[0]`
read panics) rather than returning an empty matrix, and `Matrix::map` —
which rebuilds through `from_data` — fails on every matrix with zero rows,
including `Matrix::default()` (`{rows: 0, cols: 0, data: []}`). -/
theorem c10_from_data_map_require_rows :
    Matrix.from_data ([] : List (List ℚ)) = none ∧
    (∀ (f : ℚ → ℚ) (m : Matrix), m.WF → m.rows = 0 → m.map f = none) ∧
    (∀ f : ℚ → ℚ, Matrix.default.map f = none) := by
  refine ⟨rfl, ?_, fun f => rfl⟩
  intro f m hwf hr
  have hdata : m.data = [] := by
    have := hwf.1
    rw [hr] at this
    exact List.length_eq_zero.mp this
  simp [Matrix.map, hdata, Matrix.from_data]

/-- Witness for C10 at the concrete input `Matrix::default()` with `f = id`. -/
theorem c10_witness :
    (Matrix.default).WF ∧ Matrix.default.rows = 0 ∧
      Matrix.default.map (fun x => x) = none :=
  ⟨by decide, rfl,
    c10_from_data_map_require_rows.2.1 (fun x => x) Matrix.default (by decide) rfl⟩

/-! ## C4 -/

/-- C4: the initializers scale by `sqrt(2/cols)` / `sqrt(1/cols)`, not by
`sqrt(2/rows)` / `sqrt(1/rows)` as the claim (and the source's own
"variance = 2 / fan_in" comments at the `Layer::new` call site) state.
Under `opsProbe` every standard-normal sample is exactly 1 and `sqrt` is the
identity, so an entry of `he(2, 3)` equals the squared scale actually used:
`2/3 = 2/cols`, whereas the claim's `2/r` would give `2/2 = 1`; likewise
`xavier(2, 3)` gives `1/3`, not `1/2`.  The last two conjuncts pin the
failing call site: a layer with `input_size = 2` inputs and `size = 3`
neurons draws its weights from `he(2, 3)` / `xavier(2, 3)`, i.e. with
variance `2/size` (fan-out), not `2/input_size` (fan-in). -/
theorem c4_init_variance_uses_cols :
    (Matrix.he opsProbe (fun _ => 0) 2 3).get 0 0 = 2/3 ∧
    ((2:ℚ)/3 ≠ 2/2) ∧
    (Matrix.xavier opsProbe (fun _ => 0) 2 3).get 0 0 = 1/3 ∧
    ((1:ℚ)/3 ≠ 1/2) ∧
    (Layer.new opsProbe (fun _ => 0) 3 2 .ReLU).weights =
      Matrix.he opsProbe (fun _ => 0) 2 3 ∧
    (Layer.new opsProbe (fun _ => 0) 3 2 .Identity).weights =
      Matrix.xavier opsProbe (fun _ => 0) 2 3 := by
  refine ⟨?_, by norm_num, ?_, by norm_num, rfl, rfl⟩
  · norm_num [Matrix.he, Matrix.get, Matrix.sample_standard_normal, opsProbe,
      List.range_succ]
  · norm_num [Matrix.xavier, Matrix.get, Matrix.sample_standard_normal, opsProbe,
      List.range_succ]

/-! ## C7 -/

/-- C7: `train_loop` fails on entry — before the epoch loop runs and before
the network is touched (the error branch carries no mutated state) —
whenever the training set is empty, the input/label counts differ, or
`batch_size == 0`; the failure is a failed `assert!` (a panic, i.e. a fatal
precondition violation), not a recoverable return. -/
theorem c7_train_loop_fails_fast (ops : FloatOps) (net : Network)
    (ti tl : List (List ℚ)) (vi vl : Option (List (List ℚ)))
    (opt : Sgd) (cfg : TrainConfig) (perms : Nat → List Nat)
    (h : ti = [] ∨ ti.length ≠ tl.length ∨ cfg.batch_size = 0) :
    ∃ msg, train_loop ops net ti tl vi vl opt cfg perms = Except.error msg := by
  unfold train_loop
  by_cases hA : ti.isEmpty = true
  · rw [if_pos hA]
    exact ⟨_, rfl⟩
  · rw [if_neg hA]
    by_cases hB : ti.length ≠ tl.length
    · rw [if_pos hB]
      exact ⟨_, rfl⟩
    · rw [if_neg hB]
      have hC : cfg.batch_size = 0 := by
        rcases h with h | h | h
        · exact absurd (by simp [h]) hA
        · exact absurd h hB
        · exact h
      rw [if_pos (by omega)]
      exact ⟨_, rfl⟩

/-- Witness for C7: the concrete empty training set fails. -/
theorem c7_witness :
    (([] : List (List ℚ)) = [] ∨
      ([] : List (List ℚ)).length ≠ ([] : List (List ℚ)).length ∨
      (TrainConfig.mk 1 1 .Mse false (fun _ => true) none).batch_size = 0) ∧
    ∃ msg, train_loop opsTriv ⟨[]⟩ [] [] none none ⟨1⟩
        (TrainConfig.mk 1 1 .Mse false (fun _ => true) none) (fun _ => []) =
      Except.error msg :=
  ⟨Or.inl rfl,
    c7_train_loop_fails_fast opsTriv ⟨[]⟩ [] [] none none ⟨1⟩
      (TrainConfig.mk 1 1 .Mse false (fun _ => true) none) (fun _ => [])
      (Or.inl rfl)⟩

/-! ## C8 -/

/-- C8: if the stop flag is configured and already reads `true` at the very
first poll (before the first epoch begins), `train_loop` performs no epoch
at all (`epochs_completed = 0 ≤ 1`), delivers no progress events, leaves the
network untouched, and returns the loss of the last completed epoch — the
initial `0.0`, as no epoch completed. -/
theorem c8_stop_flag_set_before_first_epoch (ops : FloatOps) (net : Network)
    (ti tl : List (List ℚ)) (vi vl : Option (List (List ℚ)))
    (opt : Sgd) (cfg : TrainConfig) (perms : Nat → List Nat) (f : Nat → Bool)
    (hflag : cfg.stop_flag = some f) (hset : f 0 = true)
    (hne : ti ≠ []) (hlen : ti.length = tl.length) (hbs : 0 < cfg.batch_size) :
    train_loop ops net ti tl vi vl opt cfg perms = Except.ok ⟨net, 0, [], 0⟩ := by
  have h1 : ti.isEmpty = false := by
    cases ti with
    | nil => exact absurd rfl hne
    | cons a l => rfl
  have hstop : pollStop cfg 0 = true := by
    simp [pollStop, hflag, hset]
  unfold train_loop
  rw [h1]
  simp only [Bool.false_eq_true, if_false, hlen, ne_eq, not_true_eq_false,
    not_lt, Nat.le_zero]
  rw [if_neg (by omega)]
  cases hep : cfg.epochs with
  | zero => rfl
  | succ r =>
      unfold train_epochs
      rw [if_pos hstop]

/-- Witness for C8 at a concrete one-sample, two-epoch run whose stop flag
is constantly `true`. -/
theorem c8_witness :
    (TrainConfig.mk 2 1 .Mse true (fun _ => true)
        (some (fun _ => true))).stop_flag = some (fun _ => true) ∧
    (fun _ : Nat => true) 0 = true ∧
    ([[(1:ℚ)]] : List (List ℚ)) ≠ [] ∧
    ([[(1:ℚ)]] : List (List ℚ)).length = ([[(0:ℚ)]] : List (List ℚ)).length ∧
    0 < (TrainConfig.mk 2 1 .Mse true (fun _ => true) (some (fun _ => true))).batch_size ∧
    train_loop opsTriv ⟨[]⟩ [[(1:ℚ)]] [[(0:ℚ)]] none none ⟨1⟩
        (TrainConfig.mk 2 1 .Mse true (fun _ => true) (some (fun _ => true)))
        (fun _ => [0]) =
      Except.ok ⟨⟨[]⟩, 0, [], 0⟩ :=
  ⟨rfl, rfl, by simp, rfl, Nat.one_pos,
    c8_stop_flag_set_before_first_epoch opsTriv ⟨[]⟩ [[(1:ℚ)]] [[(0:ℚ)]]
      none none ⟨1⟩ _ (fun _ => [0]) (fun _ => true) rfl rfl (by simp) rfl
      Nat.one_pos⟩

/-! ## C1 -/

theorem Matrix.eq_of_fields (m1 m2 : Matrix) (hr : m1.rows = m2.rows)
    (hc : m1.cols = m2.cols) (hd : m1.data = m2.data) : m1 = m2 := by
  cases m1
  cases m2
  simp only at hr hc hd
  rw [hr, hc, hd]

theorem zipWith_mul_ones :
    ∀ (ra rb : List ℚ), ra.length ≤ rb.length →
      List.zipWith (· * ·) ra (rb.map (fun _ => (1:ℚ))) = ra
  | [], _, _ => by simp
  | a :: ra, [], h => absurd h (by simp)
  | a :: ra, b :: rb, h => by
      simp only [List.map_cons, List.zipWith_cons_cons, mul_one]
      rw [zipWith_mul_ones ra rb (by simpa using h)]

theorem zipWith_rows_ones :
    ∀ (d p : List (List ℚ)), d.length ≤ p.length →
      (∀ rd ∈ d, ∀ rp ∈ p, rd.length ≤ rp.length) →
      List.zipWith (fun ra rb => List.zipWith (· * ·) ra rb) d
        (p.map (List.map (fun _ => (1:ℚ)))) = d
  | [], _, _, _ => by simp
  | rd :: d, [], h, _ => absurd h (by simp)
  | rd :: d, rp :: p, h, hrows => by
      simp only [List.map_cons, List.zipWith_cons_cons]
      rw [zipWith_mul_ones rd rp
          (hrows rd (List.mem_cons_self rd d) rp (List.mem_cons_self rp p)),
        zipWith_rows_ones d p (by simpa using h)
          (fun x hx y hy =>
            hrows x (List.mem_cons_of_mem rd hx) y (List.mem_cons_of_mem rp hy))]

/-- C1: (i) `CrossEntropyLoss::derivative` returns `predicted − expected`
element-wise; (ii) the activation-derivative factor for a Softmax layer is
the constant `1.0` at every coordinate; (iii) consequently
`Layer::compute_gradients` on a Softmax final layer passes the incoming
delta through unchanged: the layer delta (= the bias gradient) equals the
loss-derivative delta — with delta built from `CrossEntropyLoss::derivative`,
exactly `predicted − expected`. -/
theorem c1_softmax_ce_gradient :
    (∀ (p e : List ℚ) (i : Nat), i < p.length → i < e.length →
        (CrossEntropyLoss.derivative p e).getD i 0 = p.getD i 0 - e.getD i 0) ∧
    (∀ (ops : FloatOps) (x : ℚ), ActivationFunction.derivative ops .Softmax x = 1) ∧
    (∀ (ops : FloatOps) (l : Layer) (delta inputs : Matrix),
        l.activator = .Softmax → delta.WF → l.pre_neurons.WF →
        0 < delta.rows → delta.rows = l.pre_neurons.rows →
        delta.cols = l.pre_neurons.cols →
        l.compute_gradients ops delta inputs =
          (Matrix.matmul (Matrix.transpose inputs) delta, delta)) := by
  refine ⟨fun p e i h1 h2 => zipWith_getD _ p e i h1 h2, fun ops x => rfl, ?_⟩
  intro ops l delta inputs hact hdwf hpwf hrows hre hce
  have hone : (fun x => ActivationFunction.derivative ops l.activator x) =
      (fun _ => (1:ℚ)) := by
    funext x
    rw [hact]
    rfl
  have hhad : hadamard delta
      (Matrix.mapD (fun x => ActivationFunction.derivative ops l.activator x)
        l.pre_neurons) = delta := by
    unfold hadamard Matrix.mapD Matrix.mkData
    rw [hone]
    have hz : List.zipWith (fun ra rb => List.zipWith (· * ·) ra rb) delta.data
        (l.pre_neurons.data.map (List.map (fun _ => (1:ℚ)))) = delta.data := by
      refine zipWith_rows_ones delta.data l.pre_neurons.data ?_ ?_
      · rw [hdwf.1, hpwf.1, hre]
      · intro rd hrd rp hrp
        rw [hdwf.2 rd hrd, hpwf.2 rp hrp, hce]
    simp only [hz]
    obtain ⟨r, rest, hcons⟩ : ∃ r rest, delta.data = r :: rest := by
      cases hd : delta.data with
      | nil =>
          exfalso
          have h0 := hdwf.1
          rw [hd] at h0
          simp at h0
          omega
      | cons r rest => exact ⟨r, rest, rfl⟩
    have hhead : (delta.data.headD []).length = delta.cols := by
      rw [hcons]
      exact hdwf.2 r (by rw [hcons]; exact List.mem_cons_self r rest)
    exact Matrix.eq_of_fields _ _ hdwf.1 hhead rfl
  simp only [Layer.compute_gradients]
  rw [hhad]

/-- Witness for C1 part (iii): a concrete 2-neuron Softmax layer passes the
delta `[3, 4]` through unchanged. -/
theorem c1_witness :
    (Layer.mk 2 (Matrix.zeros 1 2) (Matrix.mk 1 2 [[5, 7]])
        (Matrix.mk 2 2 [[1, 0], [0, 1]]) (Matrix.zeros 1 2) .Softmax).activator =
      .Softmax ∧
    (Matrix.mk 1 2 [[(3:ℚ), 4]]).WF ∧
    (Layer.mk 2 (Matrix.zeros 1 2) (Matrix.mk 1 2 [[5, 7]])
        (Matrix.mk 2 2 [[1, 0], [0, 1]]) (Matrix.zeros 1 2) .Softmax).pre_neurons.WF ∧
    0 < (Matrix.mk 1 2 [[(3:ℚ), 4]]).rows ∧
    (Layer.mk 2 (Matrix.zeros 1 2) (Matrix.mk 1 2 [[5, 7]])
        (Matrix.mk 2 2 [[1, 0], [0, 1]]) (Matrix.zeros 1 2) .Softmax).compute_gradients
        opsTriv (Matrix.mk 1 2 [[(3:ℚ), 4]]) (Matrix.mk 1 1 [[2]]) =
      (Matrix.matmul (Matrix.transpose (Matrix.mk 1 1 [[(2:ℚ)]]))
        (Matrix.mk 1 2 [[(3:ℚ), 4]]), Matrix.mk 1 2 [[(3:ℚ), 4]]) :=
  ⟨rfl, by decide, by decide, Nat.one_pos,
    c1_softmax_ce_gradient.2.2 opsTriv _ _ _ rfl (by decide) (by decide)
      Nat.one_pos rfl rfl⟩

/-! ## Cache-stripping helpers: forward reads only weights/biases/activator -/

/-- Erase the two per-call cache fields, keeping the persisted parameters. -/
def stripCaches (l : Layer) : Layer :=
  { l with neurons := Matrix.default, pre_neurons := Matrix.default }

theorem feed_from_congr (ops : FloatOps) (l1 l2 : Layer) (c : List ℚ)
    (h : stripCaches l1 = stripCaches l2) :
    l1.feed_from ops c = l2.feed_from ops c := by
  have hs : l1.size = l2.size := by
    have hx := congrArg Layer.size h
    exact hx
  have hw : l1.weights = l2.weights := by
    have hx := congrArg Layer.weights h
    exact hx
  have hb : l1.biases = l2.biases := by
    have hx := congrArg Layer.biases h
    exact hx
  have ha : l1.activator = l2.activator := by
    have hx := congrArg Layer.activator h
    exact hx
  unfold Layer.feed_from
  rw [hs, hw, hb, ha]

theorem strip_feed (ops : FloatOps) (l : Layer) (c : List ℚ) :
    stripCaches ((l.feed_from ops c).1) = stripCaches l := rfl

theorem forwardLayers_congr (ops : FloatOps) :
    ∀ (ls1 ls2 : List Layer) (c : List ℚ),
      ls1.map stripCaches = ls2.map stripCaches →
      forwardLayers ops ls1 c = forwardLayers ops ls2 c
  | [], [], _, _ => rfl
  | [], _ :: _, _, h => by simp at h
  | _ :: _, [], _, h => by simp at h
  | l1 :: ls1, l2 :: ls2, c, h => by
      simp only [List.map_cons, List.cons.injEq] at h
      simp only [forwardLayers]
      rw [feed_from_congr ops l1 l2 c h.1,
        forwardLayers_congr ops ls1 ls2 ((l2.feed_from ops c).2) h.2]

theorem forwardLayers_strip (ops : FloatOps) :
    ∀ (ls : List Layer) (c : List ℚ),
      (forwardLayers ops ls c).1.map stripCaches = ls.map stripCaches
  | [], _ => rfl
  | l :: ls, c => by
      simp only [forwardLayers, List.map_cons]
      rw [strip_feed, forwardLayers_strip ops ls ((l.feed_from ops c).2)]

/-! ## C9 -/

theorem load_save_layers (n : Network) :
    (Network.load_json (Network.save_json n)).layers = n.layers.map stripCaches := by
  simp only [Network.load_json, Network.save_json, List.map_map]
  rfl

/-- C9: deserializing a serialized network reproduces the layer count, the
layer sizes, the full weight and bias matrices (shapes and numeric values —
`rows`/`cols` are fields of the equal `Matrix` values) and the activation
tags; only the two `#[serde(skip)]` cache fields are reset.  The
round-tripped network produces an identical `forward` output on every input. -/
theorem c9_save_load_roundtrip (n : Network) :
    (Network.load_json (Network.save_json n)).layers.length = n.layers.length ∧
    (Network.load_json (Network.save_json n)).layers.map (fun l => l.size) =
      n.layers.map (fun l => l.size) ∧
    (Network.load_json (Network.save_json n)).layers.map (fun l => l.weights) =
      n.layers.map (fun l => l.weights) ∧
    (Network.load_json (Network.save_json n)).layers.map (fun l => l.biases) =
      n.layers.map (fun l => l.biases) ∧
    (Network.load_json (Network.save_json n)).layers.map (fun l => l.activator) =
      n.layers.map (fun l => l.activator) ∧
    ∀ (ops : FloatOps) (input : List ℚ),
      ((Network.load_json (Network.save_json n)).forward ops input).2 =
        (n.forward ops input).2 := by
  rw [load_save_layers]
  refine ⟨by simp, ?_, ?_, ?_, ?_, ?_⟩
  · rw [List.map_map]
    rfl
  · rw [List.map_map]
    rfl
  · rw [List.map_map]
    rfl
  · rw [List.map_map]
    rfl
  · intro ops input
    have hnet : Network.load_json (Network.save_json n) =
        ⟨n.layers.map stripCaches⟩ := congrArg Network.mk (load_save_layers n)
    rw [hnet]
    unfold Network.forward
    rw [forwardLayers_congr ops (n.layers.map stripCaches) n.layers input
      (by rw [List.map_map]; rfl)]

/-! ## C5 -/

/-- Invariant of the `max_by` fold behind `argmax`, processing the entries
of `xs` tagged with indices `k, k+1, …` from the accumulator `(i, a)`
(with `i < k`): the result value bounds the accumulator and every list
element, and the result is either the untouched accumulator (all elements
strictly below `a`) or the **last** index attaining the running maximum
(every later element strictly below it). -/
theorem argmaxFold_invariant :
    ∀ (xs : List ℚ) (k i : Nat) (a : ℚ), i < k →
      (a ≤ (argmaxFold (i, a) (List.enumFrom k xs)).2 ∧
       ∀ x ∈ xs, x ≤ (argmaxFold (i, a) (List.enumFrom k xs)).2) ∧
      (((argmaxFold (i, a) (List.enumFrom k xs)).1 = i ∧
          (argmaxFold (i, a) (List.enumFrom k xs)).2 = a ∧
          ∀ x ∈ xs, x < a) ∨
        (∃ m, m < xs.length ∧
          (argmaxFold (i, a) (List.enumFrom k xs)).1 = k + m ∧
          xs.getD m 0 = (argmaxFold (i, a) (List.enumFrom k xs)).2 ∧
          ∀ m2, m < m2 → m2 < xs.length →
            xs.getD m2 0 < (argmaxFold (i, a) (List.enumFrom k xs)).2)) := by
  intro xs
  induction xs with
  | nil =>
      intro k i a _
      exact ⟨⟨le_refl a, by simp⟩, Or.inl ⟨rfl, rfl, by simp⟩⟩
  | cons x xs ih =>
      intro k i a hik
      simp only [List.enumFrom, argmaxFold]
      by_cases h : a > x
      · rw [if_pos h]
        obtain ⟨⟨hb1, hb2⟩, hd⟩ := ih (k + 1) i a (Nat.lt_succ_of_lt hik)
        refine ⟨⟨hb1, ?_⟩, ?_⟩
        · intro y hy
          rcases List.mem_cons.mp hy with hy | hy
          · exact hy ▸ le_trans (le_of_lt h) hb1
          · exact hb2 y hy
        · rcases hd with ⟨h1, h2, h3⟩ | ⟨m, hm, h1, h2, h3⟩
          · refine Or.inl ⟨h1, h2, ?_⟩
            intro y hy
            rcases List.mem_cons.mp hy with hy | hy
            · exact hy ▸ h
            · exact h3 y hy
          · refine Or.inr ⟨m + 1, by simpa using Nat.succ_lt_succ hm, by omega, ?_, ?_⟩
            · simpa using h2
            · intro m2 hgt hlt
              cases m2 with
              | zero => omega
              | succ m2 =>
                  simpa using h3 m2 (by omega) (by simpa using hlt)
      · rw [if_neg h]
        push_neg at h
        obtain ⟨⟨hb1, hb2⟩, hd⟩ := ih (k + 1) k x (Nat.lt_succ_self k)
        refine ⟨⟨le_trans h hb1, ?_⟩, ?_⟩
        · intro y hy
          rcases List.mem_cons.mp hy with hy | hy
          · exact hy ▸ hb1
          · exact hb2 y hy
        · rcases hd with ⟨h1, h2, h3⟩ | ⟨m, hm, h1, h2, h3⟩
          · refine Or.inr ⟨0, by simp, by omega, by simpa using h2.symm, ?_⟩
            intro m2 hgt hlt
            cases m2 with
            | zero => omega
            | succ m2 =>
                have := h3 ((x :: xs).getD (m2 + 1) 0) ?_
                · rw [h2]
                  exact this
                · have hlt2 : m2 < xs.length := by simpa using hlt
                  rw [List.getD_cons_succ, List.getD_eq_getElem xs 0 hlt2]
                  exact List.getElem_mem hlt2
          · refine Or.inr ⟨m + 1, by simpa using Nat.succ_lt_succ hm, by omega, ?_, ?_⟩
            · simpa using h2
            · intro m2 hgt hlt
              cases m2 with
              | zero => omega
              | succ m2 =>
                  simpa using h3 m2 (by omega) (by simpa using hlt)

/-- The running fold of `compute_accuracy` counts exactly the samples whose
(fixed-parameter) network output argmax matches the label argmax; the
threaded cache mutation does not affect any output. -/
theorem accuracy_fold (ops : FloatOps) (net : Network) :
    ∀ (l : List (List ℚ × List ℚ)) (netk : Network) (cnt : Nat),
      netk.layers.map stripCaches = net.layers.map stripCaches →
      (l.foldl (fun (st : Network × Nat) pr =>
          let fwd := st.1.forward ops pr.1
          (fwd.1, if argmax fwd.2 = argmax pr.2 then st.2 + 1 else st.2))
        (netk, cnt)).2 =
        cnt + l.countP (fun pr => argmax (net.forward ops pr.1).2 == argmax pr.2) := by
  intro l
  induction l with
  | nil => intro netk cnt _; simp
  | cons pr l ih =>
      intro netk cnt hs
      have hout : (netk.forward ops pr.1).2 = (net.forward ops pr.1).2 := by
        unfold Network.forward
        rw [forwardLayers_congr ops netk.layers net.layers pr.1 hs]
      have hnext : ((netk.forward ops pr.1).1).layers.map stripCaches =
          net.layers.map stripCaches := by
        unfold Network.forward
        rw [forwardLayers_strip ops netk.layers pr.1]
        exact hs
      simp only [List.foldl_cons, List.countP_cons]
      rw [ih _ _ hnext, hout]
      by_cases hc : argmax (net.forward ops pr.1).2 = argmax pr.2
      · simp [hc]
        omega
      · simp [hc]

/-- C5 counterexample: on the tied vector `[1, 1]` the source's `argmax`
returns index 1 — Rust's `max_by` keeps the **last** maximal element —
whereas the claim's first-maximum tie-break (`argmaxFirstSpec`, modelled
from the spec) returns index 0. -/
theorem c5_counterexample :
    argmax [(1:ℚ), 1] = 1 ∧ argmaxFirstSpec [(1:ℚ), 1] = 0 ∧ (1 : Nat) ≠ 0 := by
  refine ⟨?_, ?_, one_ne_zero⟩
  · simp [argmax, argmaxFold, List.enumFrom]
  · simp [argmaxFirstSpec, List.enumFrom]

/-- C5 amended: for CrossEntropy runs the training loop computes accuracy as
the fraction of samples with `argmax(output) == argmax(label)`, where
`argmax` returns an index of the maximum element but breaks ties towards the
**last** (highest) such index, not the first: the returned index is in
range, no element exceeds it, and every element after it is strictly
smaller. -/
theorem c5_accuracy_argmax_last_tie :
    (∀ v : List ℚ, v ≠ [] →
      argmax v < v.length ∧
      (∀ i, i < v.length → v.getD i 0 ≤ v.getD (argmax v) 0) ∧
      (∀ i, argmax v < i → i < v.length → v.getD i 0 < v.getD (argmax v) 0)) ∧
    (∀ (ops : FloatOps) (net : Network) (inputs labels : List (List ℚ)),
      (compute_accuracy ops net inputs labels).2 =
        (((inputs.zip labels).countP
          (fun pr => argmax (net.forward ops pr.1).2 == argmax pr.2) : ℚ)) /
          (inputs.length : ℚ)) := by
  constructor
  · rintro v hv
    obtain ⟨x, xs, rfl⟩ := List.exists_cons_of_ne_nil hv
    have hinv := argmaxFold_invariant xs 1 0 x Nat.one_pos
    obtain ⟨⟨hb1, hb2⟩, hd⟩ := hinv
    have hargmax : argmax (x :: xs) = (argmaxFold (0, x) (List.enumFrom 1 xs)).1 := rfl
    have hval : (x :: xs).getD (argmax (x :: xs)) 0 =
        (argmaxFold (0, x) (List.enumFrom 1 xs)).2 := by
      rcases hd with ⟨h1, h2, _⟩ | ⟨m, hm, h1, h2, _⟩
      · rw [hargmax, h1, List.getD_cons_zero, h2]
      · rw [hargmax, h1, Nat.add_comm 1 m, List.getD_cons_succ]
        exact h2
    refine ⟨?_, ?_, ?_⟩
    · rcases hd with ⟨h1, _, _⟩ | ⟨m, hm, h1, _, _⟩
      · rw [hargmax, h1]
        simp
      · rw [hargmax, h1]
        simp only [List.length_cons]
        omega
    · intro i hi
      rw [hval]
      cases i with
      | zero => simpa using hb1
      | succ i =>
          have hi2 : i < xs.length := by simpa using hi
          refine hb2 _ ?_
          rw [List.getD_cons_succ, List.getD_eq_getElem xs 0 hi2]
          exact List.getElem_mem hi2
    · intro i hgt hi
      rw [hval]
      rcases hd with ⟨h1, h2, h3⟩ | ⟨m, hm, h1, h2, h3⟩
      · rw [hargmax, h1] at hgt
        cases i with
        | zero => omega
        | succ i =>
            have hi2 : i < xs.length := by simpa using hi
            rw [h2, List.getD_cons_succ, List.getD_eq_getElem xs 0 hi2]
            have := h3 _ (List.getElem_mem hi2)
            simpa using this
      · rw [hargmax, h1] at hgt
        cases i with
        | zero => omega
        | succ i =>
            rw [List.getD_cons_succ]
            exact h3 i (by omega) (by simpa using hi)
  · intro ops net inputs labels
    unfold compute_accuracy
    by_cases hn : inputs.length = 0
    · have : inputs = [] := List.length_eq_zero.mp hn
      subst this
      simp
    · rw [if_neg hn]
      have := accuracy_fold ops net (inputs.zip labels) net 0 rfl
      simp only [this]
      push_cast
      ring_nf

/-- Witness for C5 (amended) at the concrete tied vector `[1, 1]`. -/
theorem c5_witness :
    ([(1:ℚ), 1] ≠ []) ∧
    (argmax [(1:ℚ), 1] < ([(1:ℚ), 1]).length ∧
     (∀ i, i < ([(1:ℚ), 1]).length →
        ([(1:ℚ), 1]).getD i 0 ≤ ([(1:ℚ), 1]).getD (argmax [(1:ℚ), 1]) 0) ∧
     (∀ i, argmax [(1:ℚ), 1] < i → i < ([(1:ℚ), 1]).length →
        ([(1:ℚ), 1]).getD i 0 < ([(1:ℚ), 1]).getD (argmax [(1:ℚ), 1]) 0)) :=
  ⟨by simp, c5_accuracy_argmax_last_tie.1 [(1:ℚ), 1] (by simp)⟩

/-! ## C2 -/

/-- Modelled from the spec: partition a list into consecutive mini-batches
of `bs` elements, the final batch possibly shorter.  Meaningful for
`bs ≥ 1`. -/
def chunkList {α : Type} (bs : Nat) : List α → List (List α)
  | [] => []
  | x :: xs => (x :: xs.take (bs - 1)) :: chunkList bs (xs.drop (bs - 1))
  termination_by l => l.length
  decreasing_by simp only [List.length_drop, List.length_cons]; omega

theorem chunkList_cons {α : Type} (bs : Nat) (hb : 0 < bs) (x : α) (xs : List α) :
    chunkList bs (x :: xs) = (x :: xs).take bs :: chunkList bs ((x :: xs).drop bs) := by
  obtain ⟨b, rfl⟩ : ∃ b, bs = b + 1 := ⟨bs - 1, by omega⟩
  rw [chunkList]
  simp

theorem chunkList_one {α : Type} : ∀ (l : List α),
    chunkList 1 l = l.map (fun x => [x])
  | [] => by rw [chunkList]; rfl
  | x :: xs => by
      rw [chunkList]
      simpa using chunkList_one xs

/-- Modelled from the spec: gradient handling for one explicit mini-batch
`chunk` — zero-initialized accumulators, per-sample gradients summed over
the chunk, each accumulated gradient divided by the chunk's **true** length,
then exactly one SGD step per layer with the averaged gradients. -/
def apply_chunk (ops : FloatOps) (inputs labels : List (List ℚ)) (opt : Sgd)
    (lt : LossType) (chunk : List Nat) (st : Network × ℚ) : Network × ℚ :=
  let acc0 := zero_grads st.1.layers
  let r := chunk.foldl (process_sample ops inputs labels lt) (st.1, acc0, st.2)
  let inv := 1 / ((chunk.length : ℚ))
  (⟨apply_averaged opt inv r.1.layers r.2.1⟩, r.2.2)

/-- Modelled from the spec: the epoch as a fold over the explicit
mini-batch partition of the shuffled index order. -/
def epochChunks (ops : FloatOps) (net : Network) (inputs labels : List (List ℚ))
    (opt : Sgd) (bs : Nat) (lt : LossType) (perm : List Nat) : Network × ℚ :=
  let r := (chunkList bs perm).foldl
    (fun st c => apply_chunk ops inputs labels opt lt c st) (net, 0)
  (r.1, r.2 / ((inputs.length : ℚ)))

/-- Modelled from the spec: one step of online SGD — the raw, non-averaged
single-sample analytic gradient is applied directly, one step per layer. -/
def online_step (ops : FloatOps) (inputs labels : List (List ℚ)) (opt : Sgd)
    (lt : LossType) (st : Network × ℚ) (idx : Nat) : Network × ℚ :=
  let input := inputs.getD idx []
  let expected := labels.getD idx []
  let fwd := st.1.forward ops input
  let total := st.2 + (compute_loss ops fwd.2 expected lt).getD 0
  let error := (compute_loss_derivative fwd.2 expected lt).getD []
  let delta : Matrix := ⟨1, error.length, [error]⟩
  let grads := sample_grads ops fwd.1.layers input delta
  (⟨List.zipWith (fun l (g : Matrix × Matrix) => opt.step l g.1 g.2) fwd.1.layers grads⟩,
   total)

/-- Modelled from the spec: online (sample-by-sample, non-averaged) SGD over
the shuffled index order. -/
def onlineSgd (ops : FloatOps) (net : Network) (inputs labels : List (List ℚ))
    (opt : Sgd) (lt : LossType) (perm : List Nat) : Network × ℚ :=
  let r := perm.foldl (online_step ops inputs labels opt lt) (net, 0)
  (r.1, r.2 / ((inputs.length : ℚ)))

theorem get_build (r c : Nat) (f : Nat → Nat → ℚ) (i j : Nat)
    (hi : i < r) (hj : j < c) :
    (((List.range r).map (fun i2 => (List.range c).map (fun j2 => f i2 j2))).getD i []).getD
      j 0 = f i j := by
  simp [List.getD_eq_getElem?_getD, List.getElem?_map, List.getElem?_range, hi, hj]

theorem Matrix.get_zeros (r c i j : Nat) : (Matrix.zeros r c).get i j = 0 := by
  unfold Matrix.zeros Matrix.get
  simp only [List.getD_eq_getElem?_getD, List.getElem?_replicate]
  split_ifs with h1
  · simp only [Option.getD_some]
    simp only [List.getD_eq_getElem?_getD, List.getElem?_replicate]
    split_ifs <;> rfl
  · rfl

theorem Matrix.get_mapD (f : ℚ → ℚ) (hf : f 0 = 0) (m : Matrix) (i j : Nat) :
    (Matrix.mapD f m).get i j = f (m.get i j) := by
  unfold Matrix.mapD Matrix.mkData Matrix.get
  simp only [List.getD_eq_getElem?_getD, List.getElem?_map]
  cases hrow : m.data[i]? with
  | none => simp [hf]
  | some row =>
      simp only [Option.map_some, Option.getD_some, List.getElem?_map]
      cases hx : row[j]? with
      | none => simp [hx, hf]
      | some x => simp [hx]

theorem Matrix.get_add (a b : Matrix) (i j : Nat) (hi : i < a.rows) (hj : j < a.cols) :
    (Matrix.add a b).get i j = a.get i j + b.get i j := by
  unfold Matrix.add Matrix.get
  simp only
  exact get_build a.rows a.cols (fun i2 j2 => a.get i2 j2 + b.get i2 j2) i j hi hj

theorem sub_scale_zero_add (w g : Matrix) (lr inv : ℚ) (hinv : inv = 1) :
    Matrix.sub w (Matrix.mapD (fun x => x * lr)
      (Matrix.mapD (fun x => x * inv)
        (Matrix.add (Matrix.zeros w.rows w.cols) g))) =
    Matrix.sub w (Matrix.mapD (fun x => x * lr) g) := by
  subst hinv
  unfold Matrix.sub
  refine Matrix.eq_of_fields _ _ rfl rfl ?_
  simp only
  apply List.map_congr_left
  intro i hi
  apply List.map_congr_left
  intro j hj
  rw [List.mem_range] at hi hj
  rw [Matrix.get_mapD _ (by ring), Matrix.get_mapD _ (by ring),
    Matrix.get_mapD _ (by ring),
    Matrix.get_add (Matrix.zeros w.rows w.cols) g i j hi hj, Matrix.get_zeros]
  ring

theorem step_avg_one (opt : Sgd) (l : Layer) (g1 g2 : Matrix) (inv : ℚ)
    (hinv : inv = 1) :
    opt.step l
      (Matrix.mapD (fun x => x * inv)
        (Matrix.add (Matrix.zeros l.weights.rows l.weights.cols) g1))
      (Matrix.mapD (fun x => x * inv)
        (Matrix.add (Matrix.zeros l.biases.rows l.biases.cols) g2)) =
    opt.step l g1 g2 := by
  unfold Sgd.step Layer.apply_gradients
  rw [sub_scale_zero_add l.weights g1 opt.learning_rate inv hinv,
    sub_scale_zero_add l.biases g2 opt.learning_rate inv hinv]

theorem zero_grads_forward (ops : FloatOps) :
    ∀ (ls : List Layer) (c : List ℚ),
      zero_grads ((forwardLayers ops ls c).1) = zero_grads ls
  | [], _ => rfl
  | l :: ls, c => by
      unfold forwardLayers zero_grads
      simp only [List.map_cons]
      congr 1
      have ih := zero_grads_forward ops ls ((l.feed_from ops c).2)
      unfold zero_grads at ih
      exact ih

theorem apply_averaged_singleton (opt : Sgd) (inv : ℚ) (hinv : inv = 1) :
    ∀ (ls : List Layer) (G : List (Matrix × Matrix)),
      apply_averaged opt inv ls
        (List.zipWith
          (fun (p q : Matrix × Matrix) => (Matrix.add p.1 q.1, Matrix.add p.2 q.2))
          (zero_grads ls) G) =
      List.zipWith (fun l (g : Matrix × Matrix) => opt.step l g.1 g.2) ls G
  | [], _ => rfl
  | _ :: _, [] => rfl
  | l :: ls, g :: G => by
      unfold apply_averaged zero_grads
      simp only [List.map_cons, List.zipWith_cons_cons]
      congr 1
      · exact step_avg_one opt l g.1 g.2 inv hinv
      · have ih := apply_averaged_singleton opt inv hinv ls G
        unfold apply_averaged zero_grads at ih
        exact ih

theorem apply_chunk_singleton (ops : FloatOps) (inputs labels : List (List ℚ))
    (opt : Sgd) (lt : LossType) (i : Nat) (st : Network × ℚ) :
    apply_chunk ops inputs labels opt lt [i] st =
      online_step ops inputs labels opt lt st i := by
  unfold apply_chunk online_step process_sample
  simp only [List.foldl_cons, List.foldl_nil]
  have hz : zero_grads st.1.layers =
      zero_grads ((st.1.forward ops (inputs.getD i [])).1).layers := by
    unfold Network.forward
    exact (zero_grads_forward ops st.1.layers (inputs.getD i [])).symm
  rw [hz]
  rw [apply_averaged_singleton opt _ (by norm_num)]

theorem take_min_len {α : Type} (l : List α) (bs : Nat) :
    l.take (min bs l.length) = l.take bs := by
  rw [← List.take_take, List.take_length]

theorem batch_starts_pos (n bs : Nat) (hb : 0 < bs) (hn : 0 < n) :
    batch_starts n bs = 0 :: (batch_starts (n - bs) bs).map (fun s => s + bs) := by
  unfold batch_starts
  have h1 : (n + bs - 1) / bs = (n - 1) / bs + 1 := by
    rw [show n + bs - 1 = (n - 1) + bs by omega, Nat.add_div_right _ hb]
  have h2 : (n - bs + bs - 1) / bs = (n - 1) / bs := by
    rcases le_or_lt bs n with h | h
    · rw [show n - bs + bs - 1 = n - 1 by omega]
    · rw [show n - bs = 0 by omega]
      rw [Nat.div_eq_of_lt (by omega), Nat.div_eq_of_lt (by omega)]
  rw [h1, h2, List.range_succ_eq_map]
  simp only [List.map_cons, Nat.zero_mul, List.map_map]
  congr 1
  apply List.map_congr_left
  intro k _
  simp only [Function.comp_apply]
  exact Nat.succ_mul k bs

theorem run_batch_eq_apply_chunk (ops : FloatOps) (inputs labels : List (List ℚ))
    (opt : Sgd) (bs : Nat) (lt : LossType) (perm : List Nat) (start : Nat)
    (st : Network × ℚ) :
    run_batch ops inputs labels opt bs lt perm perm.length start st =
      apply_chunk ops inputs labels opt lt ((perm.drop start).take bs) st := by
  have hdlen : (perm.drop start).length = perm.length - start := by simp
  have hmin : min (start + bs) perm.length - start =
      min bs ((perm.drop start).length) := by
    rw [hdlen]
    omega
  have hidx : (perm.drop start).take (min (start + bs) perm.length - start) =
      (perm.drop start).take bs := by
    rw [hmin, take_min_len]
  have hlen : ((perm.drop start).take bs).length =
      min (start + bs) perm.length - start := by
    rw [List.length_take, hmin]
  simp only [run_batch, apply_chunk]
  rw [hidx, hlen]

theorem epoch_eq_chunks (ops : FloatOps) (inputs labels : List (List ℚ))
    (opt : Sgd) (bs : Nat) (lt : LossType) (hbs : 0 < bs) :
    ∀ (perm : List Nat) (st : Network × ℚ),
      (batch_starts perm.length bs).foldl
        (fun st2 s => run_batch ops inputs labels opt bs lt perm perm.length s st2)
        st =
      (chunkList bs perm).foldl
        (fun st2 c => apply_chunk ops inputs labels opt lt c st2) st
  | [], st => by
      unfold batch_starts chunkList
      simp only [List.length_nil, Nat.zero_add]
      rw [Nat.div_eq_of_lt (by omega)]
      rfl
  | p :: ps, st => by
      rw [batch_starts_pos (p :: ps).length bs hbs (by simp), chunkList_cons bs hbs]
      simp only [List.foldl_cons, List.foldl_map]
      rw [run_batch_eq_apply_chunk ops inputs labels opt bs lt (p :: ps) 0 st,
        List.drop_zero]
      have hbody : ∀ (st2 : Network × ℚ) (s : Nat),
          run_batch ops inputs labels opt bs lt (p :: ps) (p :: ps).length (s + bs)
            st2 =
          run_batch ops inputs labels opt bs lt ((p :: ps).drop bs)
            ((p :: ps).drop bs).length s st2 := by
        intro st2 s
        rw [run_batch_eq_apply_chunk ops inputs labels opt bs lt (p :: ps) (s + bs)
            st2,
          run_batch_eq_apply_chunk ops inputs labels opt bs lt ((p :: ps).drop bs) s
            st2,
          List.drop_drop]
        rw [Nat.add_comm bs s]
      rw [List.foldl_ext _ _ _ (fun st2 s _ => hbody st2 s)]
      have hlen2 : ((p :: ps).drop bs).length = (p :: ps).length - bs := by simp
      rw [← hlen2]
      exact epoch_eq_chunks ops inputs labels opt bs lt hbs ((p :: ps).drop bs) _
  termination_by perm => perm.length
  decreasing_by simp only [List.length_drop, List.length_cons]; omega

/-- C2: (i) for every batch size `bs ≥ 1`, `run_one_epoch` equals the
mini-batch discipline described by the spec: the shuffled index order is
processed as explicit chunks of `bs` indices (the final chunk may be
shorter), each chunk with freshly zero-initialized per-layer accumulators
into which the per-sample gradients are summed, each accumulated gradient
divided by the chunk's **true** length, and exactly one SGD step per layer
with the averaged gradients; (ii) with `batch_size = 1` the epoch equals
online SGD: the gradient applied per sample is the raw, non-averaged
single-sample analytic gradient. -/
theorem c2_minibatch_discipline :
    (∀ (ops : FloatOps) (net : Network) (inputs labels : List (List ℚ))
        (opt : Sgd) (bs : Nat) (lt : LossType) (perm : List Nat),
        0 < bs → perm.length = inputs.length →
        run_one_epoch ops net inputs labels opt bs lt perm =
          epochChunks ops net inputs labels opt bs lt perm) ∧
    (∀ (ops : FloatOps) (net : Network) (inputs labels : List (List ℚ))
        (opt : Sgd) (lt : LossType) (perm : List Nat),
        perm.length = inputs.length →
        run_one_epoch ops net inputs labels opt 1 lt perm =
          onlineSgd ops net inputs labels opt lt perm) := by
  have hmain : ∀ (ops : FloatOps) (net : Network) (inputs labels : List (List ℚ))
      (opt : Sgd) (bs : Nat) (lt : LossType) (perm : List Nat),
      0 < bs → perm.length = inputs.length →
      run_one_epoch ops net inputs labels opt bs lt perm =
        epochChunks ops net inputs labels opt bs lt perm := by
    intro ops net inputs labels opt bs lt perm hbs hlen
    simp only [run_one_epoch, epochChunks]
    rw [← hlen, epoch_eq_chunks ops inputs labels opt bs lt hbs perm (net, 0)]
  refine ⟨hmain, ?_⟩
  intro ops net inputs labels opt lt perm hlen
  rw [hmain ops net inputs labels opt 1 lt perm Nat.one_pos hlen]
  simp only [epochChunks, onlineSgd]
  rw [chunkList_one, List.foldl_map]
  have hfun : (fun (st : Network × ℚ) (i : Nat) =>
      apply_chunk ops inputs labels opt lt [i] st) =
      online_step ops inputs labels opt lt := by
    funext st i
    exact apply_chunk_singleton ops inputs labels opt lt i st
  rw [hfun]

/-- Witness for C2 at a concrete one-layer Identity network trained on one
sample with batch size 1. -/
theorem c2_witness :
    0 < 1 ∧
    ([0] : List Nat).length = ([[(1:ℚ)]] : List (List ℚ)).length ∧
    run_one_epoch opsTriv
        ⟨[⟨1, Matrix.zeros 1 1, Matrix.zeros 1 1, ⟨1, 1, [[2]]⟩, ⟨1, 1, [[0]]⟩,
          .Identity⟩]⟩ [[(1:ℚ)]] [[(0:ℚ)]] ⟨1⟩ 1 .Mse [0] =
      epochChunks opsTriv
        ⟨[⟨1, Matrix.zeros 1 1, Matrix.zeros 1 1, ⟨1, 1, [[2]]⟩, ⟨1, 1, [[0]]⟩,
          .Identity⟩]⟩ [[(1:ℚ)]] [[(0:ℚ)]] ⟨1⟩ 1 .Mse [0] ∧
    run_one_epoch opsTriv
        ⟨[⟨1, Matrix.zeros 1 1, Matrix.zeros 1 1, ⟨1, 1, [[2]]⟩, ⟨1, 1, [[0]]⟩,
          .Identity⟩]⟩ [[(1:ℚ)]] [[(0:ℚ)]] ⟨1⟩ 1 .Mse [0] =
      onlineSgd opsTriv
        ⟨[⟨1, Matrix.zeros 1 1, Matrix.zeros 1 1, ⟨1, 1, [[2]]⟩, ⟨1, 1, [[0]]⟩,
          .Identity⟩]⟩ [[(1:ℚ)]] [[(0:ℚ)]] ⟨1⟩ .Mse [0] :=
  ⟨Nat.one_pos, rfl,
    c2_minibatch_discipline.1 opsTriv _ _ _ _ 1 .Mse [0] Nat.one_pos rfl,
    c2_minibatch_discipline.2 opsTriv _ _ _ _ .Mse [0] rfl⟩

end Ferrite
